import Mathlib

set_option maxHeartbeats 1000000

/-!
Verification of the tc_tools repository core: the steady-state monitor
window (utils.steady_state_monitor), the data-writer family
(utils.DataWriter / CalibrationWriter / SimulatedUseWriter / DrawWriter),
and the DAQ calibration layer (instruments.DAQ).  Every definition below
is a shallow embedding of the corresponding Python code.
-/

/-- Temperature window update performed by one successful iteration of
`steady_state_monitor` (utils.py): `np.append` of the new reading,
followed by `np.delete(array, 0)` whenever the size exceeds 60. -/
def windowPush (w : List ℚ) (x : ℚ) : List ℚ :=
  let w2 := w ++ [x]
  if 60 < w2.length then w2.tail else w2

/-- Window contents after feeding a trace of successfully acquired
readings to the monitor, starting from the empty `np.empty((0,0))`. -/
def monitorWindow (trace : List ℚ) : List ℚ :=
  trace.foldl windowPush []

/-- Embedding of `np.amax` on a nonempty array (junk value 0 on empty,
which the monitor never evaluates: the check runs after an append). -/
def listMax : List ℚ → ℚ
  | [] => 0
  | x :: xs => xs.foldl max x

/-- Embedding of `np.amin` on a nonempty array. -/
def listMin : List ℚ → ℚ
  | [] => 0
  | x :: xs => xs.foldl min x

/-- The monitor's `delta = np.amax(...) - np.amin(...)`. -/
def spread (w : List ℚ) : ℚ := listMax w - listMin w

/-- The monitor's exit condition
`(delta <= steady_delta) and (temperature_array.size >= 60)`. -/
def steadyCheck (w : List ℚ) (δ : ℚ) : Bool :=
  decide (spread w ≤ δ) && decide (60 ≤ w.length)

/-- Run of the monitor loop over a finite trace of successful readings:
returns true as soon as some iteration's steady check passes (the code
then returns True), false if the trace is exhausted first. -/
def monitorRun : List ℚ → List ℚ → ℚ → Bool
  | [], _, _ => false
  | t :: rest, w, δ =>
    let w2 := windowPush w t
    if steadyCheck w2 δ then true else monitorRun rest w2 δ

/-- Whether the monitor ever declares steady over a finite reading trace. -/
def everSteady (trace : List ℚ) (δ : ℚ) : Bool :=
  monitorRun trace [] δ

lemma windowPush_length (w : List ℚ) (x : ℚ) (h : w.length ≤ 60) :
    (windowPush w x).length = min (w.length + 1) 60 := by
  unfold windowPush
  by_cases h2 : 60 < (w ++ [x]).length
  · simp only [h2, if_true]
    simp only [List.length_tail, List.length_append, List.length_singleton]
    simp only [List.length_append, List.length_singleton] at h2
    omega
  · simp only [h2, if_false]
    simp only [List.length_append, List.length_singleton] at h2 ⊢
    omega

lemma windowPush_length_le (w : List ℚ) (x : ℚ) (h : w.length ≤ 60) :
    (windowPush w x).length ≤ 60 := by
  rw [windowPush_length w x h]; omega

lemma foldl_windowPush_length (trace : List ℚ) : ∀ w : List ℚ, w.length ≤ 60 →
    (trace.foldl windowPush w).length = min (w.length + trace.length) 60 := by
  induction trace with
  | nil => intro w h; simp; omega
  | cons t ts ih =>
    intro w h
    rw [List.foldl_cons, ih (windowPush w t) (windowPush_length_le w t h),
        windowPush_length w t h]
    simp only [List.length_cons]
    omega

lemma monitorWindow_length (trace : List ℚ) :
    (monitorWindow trace).length = min trace.length 60 := by
  unfold monitorWindow
  rw [foldl_windowPush_length trace [] (by simp)]
  simp

lemma windowPush_short (w : List ℚ) (x : ℚ) (h : w.length < 60) :
    windowPush w x = w ++ [x] := by
  have h2 : ¬ 60 < (w ++ [x]).length := by
    simp only [List.length_append, List.length_singleton]
    omega
  show (if 60 < (w ++ [x]).length then (w ++ [x]).tail else w ++ [x]) = w ++ [x]
  rw [if_neg h2]

lemma foldl_windowPush_id (trace : List ℚ) : ∀ w : List ℚ,
    w.length + trace.length ≤ 60 → trace.foldl windowPush w = w ++ trace := by
  induction trace with
  | nil => intro w h; simp
  | cons t ts ih =>
    intro w h
    simp only [List.length_cons] at h
    rw [List.foldl_cons, windowPush_short w t (by omega),
        ih (w ++ [t]) (by simp; omega)]
    simp

lemma monitorWindow_id (trace : List ℚ) (h : trace.length ≤ 60) :
    monitorWindow trace = trace := by
  unfold monitorWindow
  rw [foldl_windowPush_id trace [] (by simpa)]
  simp

lemma foldl_max_init (l : List ℚ) : ∀ a : ℚ, a ≤ l.foldl max a := by
  induction l with
  | nil => intro a; simp
  | cons x xs ih =>
    intro a
    simp only [List.foldl_cons]
    exact le_trans (le_max_left a x) (ih (max a x))

lemma foldl_max_mem (l : List ℚ) : ∀ a x : ℚ, x ∈ l → x ≤ l.foldl max a := by
  induction l with
  | nil => intro a x h; cases h
  | cons y ys ih =>
    intro a x h
    rcases List.mem_cons.mp h with h1 | h2
    · subst h1
      exact le_trans (le_max_right a x) (foldl_max_init ys (max a x))
    · exact ih (max a y) x h2

lemma le_listMax (l : List ℚ) (x : ℚ) (h : x ∈ l) : x ≤ listMax l := by
  cases l with
  | nil => cases h
  | cons y ys =>
    rcases List.mem_cons.mp h with h1 | h2
    · subst h1; exact foldl_max_init ys x
    · exact foldl_max_mem ys y x h2

lemma foldl_min_init (l : List ℚ) : ∀ a : ℚ, l.foldl min a ≤ a := by
  induction l with
  | nil => intro a; simp
  | cons x xs ih =>
    intro a
    simp only [List.foldl_cons]
    exact le_trans (ih (min a x)) (min_le_left a x)

lemma foldl_min_stay (l : List ℚ) : ∀ a : ℚ, l.foldl min a = a ∨ l.foldl min a ∈ l := by
  induction l with
  | nil => intro a; left; rfl
  | cons x xs ih =>
    intro a
    simp only [List.foldl_cons]
    rcases ih (min a x) with h | h
    · rw [h]
      rcases min_choice a x with h2 | h2
      · left; exact h2
      · right; rw [h2]; exact List.mem_cons_self x xs
    · right; exact List.mem_cons_of_mem x h

lemma listMin_mem (l : List ℚ) (h : l ≠ []) : listMin l ∈ l := by
  cases l with
  | nil => exact absurd rfl h
  | cons y ys =>
    rcases foldl_min_stay ys y with h1 | h1
    · rw [listMin, h1]; exact List.mem_cons_self y ys
    · exact List.mem_cons_of_mem y h1

lemma foldl_min_mem (l : List ℚ) : ∀ a x : ℚ, x ∈ l → l.foldl min a ≤ x := by
  induction l with
  | nil => intro a x h; cases h
  | cons y ys ih =>
    intro a x h
    rcases List.mem_cons.mp h with h1 | h2
    · subst h1
      exact le_trans (foldl_min_init ys (min a x)) (min_le_right a x)
    · exact ih (min a y) x h2

lemma listMin_le (l : List ℚ) (x : ℚ) (h : x ∈ l) : listMin l ≤ x := by
  cases l with
  | nil => cases h
  | cons y ys =>
    rcases List.mem_cons.mp h with h1 | h2
    · subst h1
      exact foldl_min_init ys x
    · exact foldl_min_mem ys y x h2

lemma foldl_min_replicate_zero (n : ℕ) :
    (List.replicate n (0:ℚ)).foldl min 0 = 0 := by
  induction n with
  | zero => rfl
  | succ k ih =>
    rw [List.replicate_succ, List.foldl_cons, min_self]
    exact ih

lemma listMin_replicate_zero (n : ℕ) :
    listMin (List.replicate (n + 1) (0:ℚ)) = 0 := by
  rw [List.replicate_succ, listMin]
  exact foldl_min_replicate_zero n

lemma monitorRun_short : ∀ (trace w : List ℚ) (δ : ℚ),
    w.length + trace.length < 60 → monitorRun trace w δ = false := by
  intro trace
  induction trace with
  | nil => intro w δ _; rfl
  | cons t ts ih =>
    intro w δ h
    simp only [List.length_cons] at h
    have hlen : (windowPush w t).length = w.length + 1 := by
      rw [windowPush_length w t (by omega)]
      omega
    have hck : steadyCheck (windowPush w t) δ = false := by
      have : ¬ (60 ≤ (windowPush w t).length) := by rw [hlen]; omega
      simp [steadyCheck, this]
    simp only [monitorRun, hck, if_false, Bool.false_eq_true]
    exact ih (windowPush w t) δ (by rw [hlen]; omega)

/-- C1: the steady-state monitor declares steady exactly when the window
holds 60 samples (its full capacity, the only way `size >= 60` is met)
and `max(window) - min(window) <= steady_delta`; a trace of fewer than 60
successful readings never declares steady, whatever its spread; and 59
in-tolerance readings followed by one outlier beyond `steady_delta`
above the window minimum is not steady. -/
theorem steady_monitor_full_window_iff (trace : List ℚ) (δ : ℚ) :
    (steadyCheck (monitorWindow trace) δ = true ↔
      (monitorWindow trace).length = 60 ∧ spread (monitorWindow trace) ≤ δ)
    ∧ (trace.length < 60 → everSteady trace δ = false)
    ∧ (∀ (ws : List ℚ) (r : ℚ), ws.length = 59 → δ < r - listMin ws →
        steadyCheck (monitorWindow (ws ++ [r])) δ = false) := by
  refine ⟨?_, ?_, ?_⟩
  · have hlen : (monitorWindow trace).length ≤ 60 := by
      rw [monitorWindow_length]; omega
    constructor
    · intro h
      simp only [steadyCheck, Bool.and_eq_true, decide_eq_true_eq] at h
      exact ⟨by omega, h.1⟩
    · intro h
      simp only [steadyCheck, Bool.and_eq_true, decide_eq_true_eq]
      exact ⟨h.2, by omega⟩
  · intro h
    exact monitorRun_short trace [] δ (by simpa)
  · intro ws r hw hr
    have hid : monitorWindow (ws ++ [r]) = ws ++ [r] := by
      apply monitorWindow_id
      simp [hw]
    have hws : ws ≠ [] := by
      intro hnil; rw [hnil] at hw; simp at hw
    have hmax : r ≤ listMax (ws ++ [r]) :=
      le_listMax _ r (by simp)
    have hmin : listMin (ws ++ [r]) ≤ listMin ws :=
      listMin_le _ _ (List.mem_append_left [r] (listMin_mem ws hws))
    have hsp : ¬ spread (ws ++ [r]) ≤ δ := by
      simp only [spread]
      intro hle
      have : r - listMin ws ≤ listMax (ws ++ [r]) - listMin (ws ++ [r]) := by
        linarith
      linarith
    rw [hid]
    simp [steadyCheck, hsp]

/-- Witness for C1 at concrete traces: ten identical readings are never
declared steady, and 59 zero readings followed by the outlier 1 fail the
steady check at `steady_delta = 1/2`. -/
theorem steady_monitor_full_window_iff_witness :
    everSteady (List.replicate 10 (0:ℚ)) 1 = false ∧
    steadyCheck (monitorWindow (List.replicate 59 (0:ℚ) ++ [1])) (1/2) = false := by
  constructor
  · exact (steady_monitor_full_window_iff (List.replicate 10 (0:ℚ)) 1).2.1 (by simp)
  · exact (steady_monitor_full_window_iff (List.replicate 59 (0:ℚ) ++ [1]) (1/2)).2.2
      (List.replicate 59 (0:ℚ)) 1 (by simp)
      (by rw [show (59 : ℕ) = 58 + 1 from rfl, listMin_replicate_zero]; norm_num)

/-- C2: the temperature window never exceeds the 60-sample capacity at
the end of a poll iteration; once at capacity, an accepted reading evicts
exactly the oldest sample (`np.delete(array, 0)`, strict FIFO); and
appending 1000 readings one at a time leaves the window size at 60. -/
theorem window_capacity_fifo :
    (∀ trace : List ℚ, (monitorWindow trace).length ≤ 60)
    ∧ (∀ (w : List ℚ) (x : ℚ), w.length = 60 → windowPush w x = w.drop 1 ++ [x])
    ∧ (monitorWindow (List.replicate 1000 (0:ℚ))).length = 60 := by
  refine ⟨?_, ?_, ?_⟩
  · intro trace
    rw [monitorWindow_length]; omega
  · intro w x h
    have h1 : 60 < (w ++ [x]).length := by
      simp only [List.length_append, List.length_singleton]
      omega
    show (if 60 < (w ++ [x]).length then (w ++ [x]).tail else w ++ [x]) = w.drop 1 ++ [x]
    rw [if_pos h1]
    cases w with
    | nil => simp at h
    | cons y ys => simp
  · rw [monitorWindow_length]
    simp only [List.length_replicate]
    omega

/-- Witness for C2: a full 60-sample window of zeros accepting the
reading 1 is exactly its 59-sample tail followed by the new reading. -/
theorem window_capacity_fifo_witness :
    windowPush (List.replicate 60 (0:ℚ)) 1
      = (List.replicate 60 (0:ℚ)).drop 1 ++ [1] :=
  window_capacity_fifo.2.1 (List.replicate 60 (0:ℚ)) 1 (by simp)

/-- Outcome of one acquisition attempt inside
`CalibrationWriter.collect_data`: a success carries the PRT reading and
the list of uncalibrated DAQ readings; `ioFail` is a transient read
error (`IOError`); `precondFail` is the unconfigured-channel
`UserWarning` raised by `DAQ.get_temp_uncalibrated`. -/
inductive Attempt
  | ok (prt : ℚ) (daq : List ℚ)
  | ioFail
  | precondFail
deriving DecidableEq, Repr

/-- Number of successful attempts in an outcome trace. -/
def countOk : List Attempt → ℕ
  | [] => 0
  | Attempt.ok _ _ :: rest => countOk rest + 1
  | Attempt.ioFail :: rest => countOk rest
  | Attempt.precondFail :: rest => countOk rest

/-- Data rows of the successful attempts, in order: each row is
`[prt.get_temp()] + daq.get_temp_uncalibrated()`. -/
def successRows : List Attempt → List (List ℚ)
  | [] => []
  | Attempt.ok p d :: rest => (p :: d) :: successRows rest
  | Attempt.ioFail :: rest => successRows rest
  | Attempt.precondFail :: rest => successRows rest

/-- Embedding of the `collect_data` loop (utils.py): while
`successful_reads < reads`, attempt an acquisition; the bare `except:`
catches every exception (IOError and UserWarning alike) and retries with
`continue`; a success writes one row and increments the counter.  The
result is (rows written, attempts consumed, loop completed — completion
is the point where `self.output_file.flush()` runs). -/
def collectLoop : List Attempt → ℕ → List (List ℚ) × ℕ × Bool
  | _, 0 => ([], 0, true)
  | [], _ + 1 => ([], 0, false)
  | Attempt.ok p d :: rest, n + 1 =>
    let r := collectLoop rest n
    ((p :: d) :: r.1, r.2.1 + 1, r.2.2)
  | Attempt.ioFail :: rest, n + 1 =>
    let r := collectLoop rest (n + 1)
    (r.1, r.2.1 + 1, r.2.2)
  | Attempt.precondFail :: rest, n + 1 =>
    let r := collectLoop rest (n + 1)
    (r.1, r.2.1 + 1, r.2.2)

lemma collectLoop_spec : ∀ (outcomes : List Attempt) (n : ℕ),
    n ≤ countOk outcomes →
    (collectLoop outcomes n).1 = (successRows outcomes).take n ∧
    (collectLoop outcomes n).2.2 = true := by
  intro outcomes
  induction outcomes with
  | nil =>
    intro n h
    simp only [countOk, Nat.le_zero] at h
    subst h
    exact ⟨rfl, rfl⟩
  | cons a rest ih =>
    intro n h
    cases a with
    | ok p d =>
      cases n with
      | zero => exact ⟨rfl, rfl⟩
      | succ m =>
        simp only [countOk] at h
        have := ih m (by omega)
        simp only [collectLoop, successRows, List.take_succ_cons]
        exact ⟨by rw [this.1], this.2⟩
    | ioFail =>
      cases n with
      | zero => exact ⟨rfl, rfl⟩
      | succ m =>
        simp only [countOk] at h
        have := ih (m + 1) h
        simp only [collectLoop, successRows]
        exact this
    | precondFail =>
      cases n with
      | zero => exact ⟨rfl, rfl⟩
      | succ m =>
        simp only [countOk] at h
        have := ih (m + 1) h
        simp only [collectLoop, successRows]
        exact this

lemma successRows_length (outcomes : List Attempt) :
    (successRows outcomes).length = countOk outcomes := by
  induction outcomes with
  | nil => rfl
  | cons a rest ih =>
    cases a with
    | ok p d => simp [successRows, countOk, ih]
    | ioFail => simp [successRows, countOk, ih]
    | precondFail => simp [successRows, countOk, ih]

/-- C3: whenever the outcome trace contains at least `reads` successes,
`collect_data` completes having written exactly the data rows of the
first `reads` successes (so exactly `reads` rows — failures write no row
and do not count, with no retry cap) and then reaches the flush; in
particular 3 failures followed by 10 successes with `reads = 10` writes
exactly 10 rows over 13 acquisition attempts. -/
theorem collect_data_exact_rows :
    (∀ (outcomes : List Attempt) (n : ℕ), n ≤ countOk outcomes →
      (collectLoop outcomes n).1 = (successRows outcomes).take n ∧
      (collectLoop outcomes n).1.length = n ∧
      (collectLoop outcomes n).2.2 = true)
    ∧ collectLoop
        (List.replicate 3 Attempt.ioFail ++ List.replicate 10 (Attempt.ok 25 [30])) 10
      = (List.replicate 10 [25, 30], 13, true) := by
  constructor
  · intro outcomes n h
    have hs := collectLoop_spec outcomes n h
    refine ⟨hs.1, ?_, hs.2⟩
    rw [hs.1, List.length_take, successRows_length]
    omega
  · decide

/-- Witness for C3: one transient failure followed by one success with
`reads = 1` writes exactly the single successful row and completes. -/
theorem collect_data_exact_rows_witness :
    (collectLoop [Attempt.ioFail, Attempt.ok 1 [2]] 1).1
        = (successRows [Attempt.ioFail, Attempt.ok 1 [2]]).take 1 ∧
    (collectLoop [Attempt.ioFail, Attempt.ok 1 [2]] 1).1.length = 1 ∧
    (collectLoop [Attempt.ioFail, Attempt.ok 1 [2]] 1).2.2 = true :=
  collect_data_exact_rows.1 [Attempt.ioFail, Attempt.ok 1 [2]] 1 (by decide)

/-- Result of one poll of the `steady_state_monitor` loop body:
either `prt.get_temp()` returns a reading or it raises. -/
inductive PollOutcome
  | ok (t : ℚ)
  | fail
deriving DecidableEq, Repr

/-- One iteration of the `steady_state_monitor` while-loop (utils.py).
On a read failure the bare `except: continue` jumps back to the loop
head, skipping the append, the steady check and the `time.sleep(10)`
(which sits after the append on the success path only); on success the
window is pushed, the check runs and the loop sleeps 10 seconds.
Returns (window after the iteration, seconds slept, steady declared). -/
def monitorStep (w : List ℚ) (δ : ℚ) : PollOutcome → List ℚ × ℕ × Bool
  | PollOutcome.fail => (w, 0, false)
  | PollOutcome.ok t =>
    let w2 := windowPush w t
    (w2, 10, steadyCheck w2 δ)

/-- Counterexample to C6: the claim that the monitor sleeps
`poll_interval` (10 s) between polls regardless of acquisition success
is false — a failed acquisition hits `continue` before the sleep, so
that iteration sleeps 0 seconds, not 10. -/
theorem monitor_sleep_counterexample :
    (monitorStep [5] (1/10) PollOutcome.fail).2.1 = 0 ∧
    (monitorStep [5] (1/10) PollOutcome.fail).2.1 ≠ 10 := by
  exact ⟨rfl, by decide⟩

/-- C6 (amended): the monitor sleeps the 10-second poll interval only
after a successful acquisition; on acquisition failure the iteration is
skipped with the window unchanged, no steady declaration, no sleep
(retry is immediate), and the error is absorbed rather than propagated
(the step is total); on success the window is pushed and the steady
check runs on the new window. -/
theorem monitor_step_amended (w : List ℚ) (δ : ℚ) :
    monitorStep w δ PollOutcome.fail = (w, 0, false)
    ∧ (∀ t : ℚ, monitorStep w δ (PollOutcome.ok t)
        = (windowPush w t, 10, steadyCheck (windowPush w t) δ)) :=
  ⟨rfl, fun _ => rfl⟩

/-- State of the `DAQ` adapter (instruments.py): whether
`set_channels` has run, the configured channel list, and the
`cal_functions` dictionary modelled as an association list whose head is
the most recent `dict.update` (every stored closure is
`lambda x: gain*x + offset`; `set_channels` installs the identity
`lambda x: x`, i.e. gain 1 and offset 0, for each configured channel). -/
structure DAQState where
  channelsSet : Bool
  channels : List ℕ
  cal : List (ℕ × (ℚ × ℚ))
deriving DecidableEq, Repr

/-- The freshly constructed DAQ: `channels_set = False`, no channels,
empty `cal_functions`. -/
def newDAQ : DAQState :=
  ⟨false, [], []⟩

/-- Embedding of `DAQ.set_channels`: stores the channel list, marks the
channels configured, and resets every listed channel's calibration
function to the identity. -/
def setChannels (s : DAQState) (chs : List ℕ) : DAQState :=
  ⟨true, chs, chs.map (fun c => (c, (1, 0))) ++ s.cal⟩

/-- Embedding of `DAQ.set_calibration`: overwrites one channel's entry
with `lambda x: gain*x + offset` (most recent update shadows older
entries). -/
def setCalibration (s : DAQState) (ch : ℕ) (g o : ℚ) : DAQState :=
  ⟨s.channelsSet, s.channels, (ch, (g, o)) :: s.cal⟩

/-- Application of a channel's stored calibration closure.  After
`set_channels` every configured channel has an entry, so the `none`
branch (a Python `KeyError`) is unreachable in the states the theorems
use; it returns the raw value, matching the identity default. -/
def applyCal (s : DAQState) (ch : ℕ) (x : ℚ) : ℚ :=
  match List.lookup ch s.cal with
  | some go => go.1 * x + go.2
  | none => x

/-- The range check `0 < n < 100` applied to each raw reading in
`DAQ.get_temp_uncalibrated`. -/
def validReading (n : ℚ) : Bool :=
  decide (0 < n) && decide (n < 100)

/-- The two exceptions `DAQ.get_temp_uncalibrated` can raise: the
`IOError('DAQ read error')` for out-of-range readings, and the
`UserWarning('Set DAQ channels before reading data')` precondition
violation. -/
inductive DAQError
  | readError
  | notConfigured
deriving DecidableEq, Repr

/-- Embedding of `DAQ.get_temp_uncalibrated` (list form), with the raw
instrument reply passed in as `raw`: without configured channels it
raises `UserWarning`; with any reading outside the open interval
(0, 100) it raises `IOError`; otherwise it returns the readings. -/
def getTempUncalibrated (s : DAQState) (raw : List ℚ) : Except DAQError (List ℚ) :=
  if s.channelsSet then
    if raw.all validReading then Except.ok raw
    else Except.error DAQError.readError
  else Except.error DAQError.notConfigured

/-- Embedding of `DAQ.get_calibrated_temp` (list form): read
uncalibrated, then apply each configured channel's calibration function
to that channel's reading (the dict pairing of channels with readings is
by position; faithful for distinct channels). -/
def getCalibratedTemp (s : DAQState) (raw : List ℚ) : Except DAQError (List ℚ) :=
  match getTempUncalibrated s raw with
  | Except.error e => Except.error e
  | Except.ok data =>
    Except.ok ((s.channels.zip data).map (fun cr => applyCal s cr.1 cr.2))

lemma lookup_identity_map (chs : List ℕ) (c : ℕ) (h : c ∈ chs) :
    List.lookup c (chs.map (fun ch => (ch, ((1:ℚ), (0:ℚ))))) = some (1, 0) := by
  induction chs with
  | nil => cases h
  | cons a rest ih =>
    rcases List.mem_cons.mp h with h1 | h2
    · subst h1
      simp [List.lookup]
    · by_cases hac : c = a
      · subst hac; simp [List.lookup]
      · have hbeq : (c == a) = false := by simpa using hac
        simp only [List.map_cons, List.lookup, hbeq]
        exact ih h2

lemma applyCal_setChannels (chs : List ℕ) (c : ℕ) (x : ℚ) (h : c ∈ chs) :
    applyCal (setChannels newDAQ chs) c x = x := by
  simp only [applyCal, setChannels, newDAQ, List.append_nil]
  rw [lookup_identity_map chs c h]
  ring

lemma applyCal_setCalibration (chs : List ℕ) (ch c : ℕ) (g o x : ℚ) (h : c ∈ chs) :
    applyCal (setCalibration (setChannels newDAQ chs) ch g o) c x
      = if c = ch then g * x + o else x := by
  by_cases hc : c = ch
  · have hbeq : (c == ch) = true := by simpa using hc
    simp only [applyCal, setCalibration, setChannels, newDAQ, List.append_nil,
      List.lookup, hbeq, if_pos hc]
  · have hbeq : (c == ch) = false := by simpa using hc
    simp only [applyCal, setCalibration, setChannels, newDAQ, List.append_nil,
      List.lookup, hbeq, if_neg hc]
    rw [lookup_identity_map chs c h]
    ring

/-- C7: a calibrated DAQ read applies `gain*raw + offset` with each
channel's own pair; every channel defaults to the identity (gain 1,
offset 0) after `set_channels` until `set_calibration` is called for it;
and calibrating one channel leaves every other channel's calibrated
reading unchanged (the reading at `c ≠ ch` stays the raw value it had
before the `set_calibration` call). -/
theorem daq_calibration_per_channel (chs : List ℕ) (ch : ℕ) (g o : ℚ)
    (raw : List ℚ) (hlen : raw.length = chs.length)
    (hv : raw.all validReading = true) :
    getCalibratedTemp (setChannels newDAQ chs) raw = Except.ok raw
    ∧ getCalibratedTemp (setCalibration (setChannels newDAQ chs) ch g o) raw
      = Except.ok ((chs.zip raw).map
          (fun cr => if cr.1 = ch then g * cr.2 + o else cr.2)) := by
  have hset : (setChannels newDAQ chs).channelsSet = true := rfl
  have hset2 : ∀ g o : ℚ,
      (setCalibration (setChannels newDAQ chs) ch g o).channelsSet = true :=
    fun _ _ => rfl
  constructor
  · simp only [getCalibratedTemp, getTempUncalibrated, hset, hv, if_true]
    have hmap : (chs.zip raw).map
        (fun cr => applyCal (setChannels newDAQ chs) cr.1 cr.2)
        = (chs.zip raw).map Prod.snd := by
      apply List.map_congr_left
      intro cr hcr
      exact applyCal_setChannels chs cr.1 cr.2 (List.of_mem_zip hcr).1
    rw [show (setChannels newDAQ chs).channels = chs from rfl, hmap,
      List.map_snd_zip chs raw (by omega)]
  · simp only [getCalibratedTemp, getTempUncalibrated, hset2, hv, if_true]
    rw [show (setCalibration (setChannels newDAQ chs) ch g o).channels = chs from rfl]
    congr 1
    apply List.map_congr_left
    intro cr hcr
    exact applyCal_setCalibration chs ch cr.1 g o cr.2 (List.of_mem_zip hcr).1

/-- Witness for C7 on two channels: calibrating channel 101 with gain 2
and offset 3 turns its raw reading 50 into 103 and leaves channel 102's
reading 60 untouched; before calibration both pass through unchanged. -/
theorem daq_calibration_per_channel_witness :
    getCalibratedTemp (setChannels newDAQ [101, 102]) [50, 60] = Except.ok [50, 60]
    ∧ getCalibratedTemp (setCalibration (setChannels newDAQ [101, 102]) 101 2 3) [50, 60]
      = Except.ok [103, 60] := by
  have h := daq_calibration_per_channel [101, 102] 101 2 3 [50, 60]
    (by decide) (by decide)
  refine ⟨h.1, ?_⟩
  rw [h.2]
  norm_num

/-- C10: with configured channels, an uncalibrated acquisition raises
`IOError` exactly when some raw reading lies outside the open interval
(0, 100); readings of exactly 0 or exactly 100 are rejected; and when
every reading is strictly inside the interval the full reading list is
returned. -/
theorem uncalibrated_read_range_check (chs : List ℕ) (raw : List ℚ) :
    (getTempUncalibrated (setChannels newDAQ chs) raw
        = Except.error DAQError.readError ↔ ∃ n ∈ raw, ¬ (0 < n ∧ n < 100))
    ∧ ((∀ n ∈ raw, 0 < n ∧ n < 100) →
        getTempUncalibrated (setChannels newDAQ chs) raw = Except.ok raw)
    ∧ ((0:ℚ) ∈ raw →
        getTempUncalibrated (setChannels newDAQ chs) raw
          = Except.error DAQError.readError)
    ∧ ((100:ℚ) ∈ raw →
        getTempUncalibrated (setChannels newDAQ chs) raw
          = Except.error DAQError.readError) := by
  have hall : raw.all validReading = true ↔ ∀ n ∈ raw, 0 < n ∧ n < 100 := by
    simp [List.all_eq_true, validReading]
  refine ⟨?_, ?_, ?_, ?_⟩
  · constructor
    · intro h
      by_contra hc
      push_neg at hc
      have : raw.all validReading = true := hall.mpr (by
        intro n hn
        by_contra hn2
        exact hn2 (hc n hn))
      simp [getTempUncalibrated, setChannels, this] at h
    · intro h
      rcases h with ⟨n, hn, hout⟩
      have : ¬ raw.all validReading = true := by
        intro hv
        exact hout (hall.mp hv n hn)
      simp only [getTempUncalibrated, setChannels, if_true]
      rw [if_neg this]
  · intro h
    simp [getTempUncalibrated, setChannels, hall.mpr h]
  · intro h0
    have : ¬ raw.all validReading = true := by
      intro hv
      have := hall.mp hv 0 h0
      simp at this
    simp only [getTempUncalibrated, setChannels, if_true]
    rw [if_neg this]
  · intro h100
    have : ¬ raw.all validReading = true := by
      intro hv
      have := hall.mp hv 100 h100
      norm_num at this
    simp only [getTempUncalibrated, setChannels, if_true]
    rw [if_neg this]

/-- Witness for C10: with channel 101 configured, the reading list [50]
is returned whole, while [0] and [100] each raise the read error. -/
theorem uncalibrated_read_range_check_witness :
    getTempUncalibrated (setChannels newDAQ [101]) [50] = Except.ok [50]
    ∧ getTempUncalibrated (setChannels newDAQ [101]) [0]
        = Except.error DAQError.readError
    ∧ getTempUncalibrated (setChannels newDAQ [101]) [100]
        = Except.error DAQError.readError := by
  refine ⟨?_, ?_, ?_⟩
  · exact (uncalibrated_read_range_check [101] [50]).2.1 (by decide)
  · exact (uncalibrated_read_range_check [101] [0]).2.2.1 (by decide)
  · exact (uncalibrated_read_range_check [101] [100]).2.2.2 (by decide)

/-- Counterexample to C9: a precondition violation during a calibration
collection batch does not propagate — the bare `except:` in
`collect_data` catches the `UserWarning` like any transient error, so a
batch whose first attempt hits the unconfigured-channel condition simply
retries, then completes normally on the next successful attempt. -/
theorem precondition_retried_counterexample :
    collectLoop [Attempt.precondFail, Attempt.ok 25 [30]] 1
      = ([[25, 30]], 2, true) := by
  decide

/-- C9 (amended): acquiring from an unconfigured DAQ is signaled as a
distinct condition (`UserWarning`, unlike the `IOError` used for
transient read errors) and the DAQ itself does not retry it; but inside
`collect_data` the bare `except:` catches it too, so during a
calibration batch the precondition violation is retried like a
transient failure instead of propagating. -/
theorem precondition_distinct_but_retried :
    (∀ raw : List ℚ, getTempUncalibrated newDAQ raw
        = Except.error DAQError.notConfigured)
    ∧ DAQError.notConfigured ≠ DAQError.readError
    ∧ (∀ (rest : List Attempt) (n : ℕ),
        collectLoop (Attempt.precondFail :: rest) (n + 1)
          = ((collectLoop rest (n + 1)).1,
             (collectLoop rest (n + 1)).2.1 + 1,
             (collectLoop rest (n + 1)).2.2)) := by
  exact ⟨fun _ => rfl, by decide, fun _ _ => rfl⟩

/-- Header row built by `DataWriter.__init__`: the fixed leading label
"Time" followed by the supplied headers. -/
def headerRow (headers : List String) : List String :=
  "Time" :: headers

/-- Embedding of `DataWriter.__init__`'s file handling, the file
modelled as `none` (no file at the path) or `some rows`: a missing file
is created holding exactly the header row; an existing file is opened
for append with no header written.  Returns the file contents after
construction and the number of header rows written. -/
def dataWriterInit (existing : Option (List (List String)))
    (headers : List String) : List (List String) × ℕ :=
  match existing with
  | none => ([headerRow headers], 1)
  | some rows => (rows, 0)

/-- Embedding of `DataWriter._write`: append one row consisting of the
wall-clock timestamp followed by the supplied fields. -/
def writeRow (file : List (List String)) (ts : String)
    (fields : List String) : List (List String) :=
  file ++ [ts :: fields]

/-- C4: constructing a Data Writer at a path with no file creates it
and writes exactly one header row ("Time" followed by the supplied
headers) before any data row; constructing it over an existing file
keeps the contents for appending and writes zero header rows. -/
theorem data_writer_header_discipline (headers : List String) :
    dataWriterInit none headers = ([["Time"] ++ headers], 1)
    ∧ (∀ rows, dataWriterInit (some rows) headers = (rows, 0))
    ∧ (∀ ts fields, writeRow (dataWriterInit none headers).1 ts fields
        = [headerRow headers, ts :: fields]) :=
  ⟨rfl, fun _ => rfl, fun _ _ => rfl⟩

/-- Quote-doubling performed by the CSV writer inside a quoted field
(`csv.QUOTE_ALL` with the excel dialect doubles embedded quotes). -/
def escapeField : List Char → List Char
  | [] => []
  | c :: cs => if c = '"' then '"' :: '"' :: escapeField cs else c :: escapeField cs

/-- One CSV field as written with `quoting=csv.QUOTE_ALL`: the field
text, quote-doubled, wrapped in quotes. -/
def encodeField (f : List Char) : List Char :=
  '"' :: (escapeField f ++ ['"'])

/-- A whole CSV record row: the quoted fields joined by commas. -/
def encodeRowChars : List (List Char) → List Char
  | [] => []
  | [f] => encodeField f
  | f :: g :: fs => encodeField f ++ ',' :: encodeRowChars (g :: fs)
/-- CSV re-parser (excel dialect) as a character-at-a-time state
machine: `inQ` says whether the position is inside a quoted field and
`pending` that a quote was just seen inside one (the next character
decides between a doubled literal quote and the end of the field);
`cur` is the field being read and `acc` the finished fields. -/
def parseAux : List Char → Bool → Bool → List Char → List (List Char) → List (List Char)
  | [], _, _, cur, acc => acc ++ [cur]
  | c :: rest, true, false, cur, acc =>
    if c = '"' then parseAux rest true true cur acc
    else parseAux rest true false (cur ++ [c]) acc
  | c :: rest, true, true, cur, acc =>
    if c = '"' then parseAux rest true false (cur ++ ['"']) acc
    else if c = ',' then parseAux rest false false [] (acc ++ [cur])
    else parseAux rest false false (cur ++ [c]) acc
  | c :: rest, false, _, cur, acc =>
    if c = '"' then parseAux rest true false cur acc
    else if c = ',' then parseAux rest false false [] (acc ++ [cur])
    else parseAux rest false false (cur ++ [c]) acc

lemma parseAux_nil (b p : Bool) (cur : List Char) (acc : List (List Char)) :
    parseAux [] b p cur acc = acc ++ [cur] := by
  cases b <;> cases p <;> rfl

lemma parseAux_inq_quote (rest cur : List Char) (acc : List (List Char)) :
    parseAux ('"' :: rest) true false cur acc = parseAux rest true true cur acc := by
  simp [parseAux]

lemma parseAux_inq_char (c : Char) (rest cur : List Char) (acc : List (List Char))
    (hc : c ≠ '"') :
    parseAux (c :: rest) true false cur acc
      = parseAux rest true false (cur ++ [c]) acc := by
  simp only [parseAux]
  rw [if_neg hc]

lemma parseAux_pending_quote (rest cur : List Char) (acc : List (List Char)) :
    parseAux ('"' :: rest) true true cur acc
      = parseAux rest true false (cur ++ ['"']) acc := by
  simp [parseAux]

lemma parseAux_pending_comma (rest cur : List Char) (acc : List (List Char)) :
    parseAux (',' :: rest) true true cur acc
      = parseAux rest false false [] (acc ++ [cur]) := by
  simp [parseAux]

lemma parseAux_out_quote (rest cur : List Char) (b : Bool) (acc : List (List Char)) :
    parseAux ('"' :: rest) false b cur acc = parseAux rest true false cur acc := by
  simp [parseAux]

lemma parseAux_out_comma (rest cur : List Char) (b : Bool) (acc : List (List Char)) :
    parseAux (',' :: rest) false b cur acc
      = parseAux rest false false [] (acc ++ [cur]) := by
  simp [parseAux]

lemma parseAux_quoted (f : List Char) : ∀ (k cur : List Char) (acc : List (List Char)),
    (k = [] ∨ ∃ k2, k = ',' :: k2) →
    parseAux (escapeField f ++ '"' :: k) true false cur acc
      = parseAux k false false (cur ++ f) acc := by
  induction f with
  | nil =>
    intro k cur acc hk
    rcases hk with h | ⟨k2, h⟩
    · subst h
      rw [show escapeField [] ++ '"' :: ([] : List Char) = ['"'] from rfl,
        parseAux_inq_quote, parseAux_nil, parseAux_nil]
      simp
    · subst h
      rw [show escapeField [] ++ '"' :: (',' :: k2) = '"' :: ',' :: k2 from rfl,
        parseAux_inq_quote, parseAux_pending_comma, parseAux_out_comma]
      simp
  | cons c cs ih =>
    intro k cur acc hk
    by_cases hc : c = '"'
    · subst hc
      rw [show escapeField ('"' :: cs) = '"' :: '"' :: escapeField cs from by
          simp [escapeField],
        List.cons_append, List.cons_append, parseAux_inq_quote,
        parseAux_pending_quote, ih k _ acc hk]
      simp
    · rw [show escapeField (c :: cs) = c :: escapeField cs from by
          simp [escapeField, hc],
        List.cons_append, parseAux_inq_char c _ _ _ hc, ih k _ acc hk]
      simp

lemma parse_encode_aux : ∀ (fs : List (List Char)) (acc : List (List Char)),
    fs ≠ [] → parseAux (encodeRowChars fs) false false [] acc = acc ++ fs := by
  intro fs
  induction fs with
  | nil => intro acc h; exact absurd rfl h
  | cons f rest ih =>
    intro acc _
    cases rest with
    | nil =>
      show parseAux (encodeField f) false false [] acc = acc ++ [f]
      rw [encodeField, parseAux_out_quote,
        show escapeField f ++ ['"'] = escapeField f ++ '"' :: [] from rfl,
        parseAux_quoted f [] [] acc (Or.inl rfl), parseAux_nil]
      simp
    | cons g fs2 =>
      show parseAux (encodeField f ++ ',' :: encodeRowChars (g :: fs2)) false false [] acc
        = acc ++ (f :: g :: fs2)
      rw [encodeField,
        show ('"' :: (escapeField f ++ ['"'])) ++ ',' :: encodeRowChars (g :: fs2)
          = '"' :: (escapeField f ++ '"' :: (',' :: encodeRowChars (g :: fs2))) from by
          simp,
        parseAux_out_quote,
        parseAux_quoted f _ [] acc (Or.inr ⟨encodeRowChars (g :: fs2), rfl⟩),
        parseAux_out_comma,
        List.nil_append,
        ih (acc ++ [f]) (by simp)]
      simp

/-- Row serialization as the writers perform it: every field quoted. -/
def encodeRow (fields : List String) : String :=
  String.mk (encodeRowChars (fields.map String.toList))

/-- Re-parsing one CSV row into its fields. -/
def parseRow (s : String) : List String :=
  (parseAux s.toList false false [] []).map String.mk

lemma parseRow_encodeRow (fields : List String) (h : fields ≠ []) :
    parseRow (encodeRow fields) = fields := by
  show (parseAux (String.mk (encodeRowChars (fields.map String.toList))).toList
      false false [] []).map String.mk = fields
  rw [show (String.mk (encodeRowChars (fields.map String.toList))).toList
      = encodeRowChars (fields.map String.toList) from rfl]
  rw [parse_encode_aux (fields.map String.toList) [] (by simpa using h)]
  rw [List.nil_append, List.map_map]
  have hid : (String.mk ∘ String.toList) = id := funext (fun s => rfl)
  rw [hid, List.map_id]

/-- Data row written by `CalibrationWriter.collect_data` through
`_write`: the timestamp, then `[prt.get_temp()]`, then one field per
uncalibrated DAQ channel reading. -/
def calibrationRowFields (ts prt : String) (daqVals : List String) : List String :=
  ts :: prt :: daqVals

/-- Data row written by `DrawWriter.read_data` on the non-initial path:
timestamp, the elapsed field, the single field holding
`temps[inlet] + temps[outlet]`, and the scale weight. -/
def drawRowFields (ts elapsed tempSum weight : String) : List String :=
  [ts, elapsed, tempSum, weight]

/-- Data row written by `SimulatedUseWriter.read_data`: timestamp,
elapsed time, the drawing flag, one field per calibrated DAQ channel,
the humidity reading and the four power-meter readings. -/
def simUseRowFields (ts elapsed drawing : String) (tcData : List String)
    (rh watts energy volts amps : String) : List String :=
  ts :: elapsed :: drawing :: (tcData ++ [rh, watts, energy, volts, amps])

/-- Default draw-file headers supplied by DOEtest.py to the DrawWriter. -/
def doeDrawHeaders : List String :=
  ["Elapsed", "Inlet Temperature", "Outlet Temperature", "Scale Weight"]

/-- Counterexample to C5: written rows do not always re-parse to the
header row's field count.  A CalibrationWriter whose headers name its
channels one-for-one (tc_calibration.py enforces
`len(channels) == len(headers)`) writes, with one channel, data rows
that re-parse to 3 fields against a 2-field header (the PRT reading has
no header column); the DrawWriter with its default four headers writes
4-field rows against a 5-field header (inlet and outlet are summed into
one field). -/
theorem csv_field_count_counterexample :
    (parseRow (encodeRow (calibrationRowFields "t" "25.1" ["24.9"]))).length ≠
      (parseRow (encodeRow (headerRow ["101"]))).length
    ∧ (parseRow (encodeRow (drawRowFields "t" "0" "40" "100"))).length ≠
      (parseRow (encodeRow (headerRow doeDrawHeaders))).length := by
  constructor
  · rw [parseRow_encodeRow _ (by simp [calibrationRowFields]),
      parseRow_encodeRow _ (by simp [headerRow])]
    decide
  · rw [parseRow_encodeRow _ (by simp [drawRowFields]),
      parseRow_encodeRow _ (by simp [headerRow])]
    decide

/-- C5 (amended): every written row re-parses to exactly its own field
list — 1 + (number of supplied headers) fields for the header row,
2 + (number of DAQ channels) for a calibration row, 4 for a draw row and
8 + (number of DAQ channels) for a simulated-use row — so the claimed
field-count equality with the header holds exactly when the supplied
headers match the row's data fields in number, which the calibration
header discipline (one header per channel) and the DrawWriter's default
four headers both violate. -/
theorem csv_field_count_amended (headers : List String) (ts prt : String)
    (daqVals : List String) (elapsed tempSum weight drawing : String)
    (tcData : List String) (rh watts energy volts amps : String) :
    (parseRow (encodeRow (headerRow headers))).length = 1 + headers.length
    ∧ (parseRow (encodeRow (calibrationRowFields ts prt daqVals))).length
        = 2 + daqVals.length
    ∧ (parseRow (encodeRow (drawRowFields ts elapsed tempSum weight))).length = 4
    ∧ (parseRow (encodeRow
        (simUseRowFields ts elapsed drawing tcData rh watts energy volts amps))).length
        = 8 + tcData.length := by
  refine ⟨?_, ?_, ?_, ?_⟩
  · rw [parseRow_encodeRow _ (by simp [headerRow])]
    simp [headerRow]
    omega
  · rw [parseRow_encodeRow _ (by simp [calibrationRowFields])]
    simp [calibrationRowFields]
    omega
  · rw [parseRow_encodeRow _ (by simp [drawRowFields])]
    simp [drawRowFields]
  · rw [parseRow_encodeRow _ (by simp [simUseRowFields])]
    simp [simUseRowFields]
    omega

/-- Dynamic value of the Python expression building the DrawWriter row:
`read_data` mixes an `int` and lists, so the embedding carries both. -/
inductive PyVal
  | num (q : ℚ)
  | pylist (xs : List ℚ)
deriving DecidableEq, Repr

/-- Python `+` as it behaves on the values `read_data` combines:
numbers add, lists concatenate, and `int + list` raises `TypeError`. -/
def pyAdd : PyVal → PyVal → Except String PyVal
  | PyVal.num x, PyVal.num y => Except.ok (PyVal.num (x + y))
  | PyVal.pylist xs, PyVal.pylist ys => Except.ok (PyVal.pylist (xs ++ ys))
  | _, _ => Except.error "TypeError"

/-- Embedding of `DrawWriter.read_data` (utils.py): `elapsed` is the
int `0` when `initial` is true and the one-element list
`[self.start - time.time()]` otherwise; `temp_data` is the one-element
list `[temps[self.inlet] + temps[self.outlet]]` and `weight` the
one-element list `[self.scale.weigh()]`; the written fields are
`elapsed + temp_data + weight` under Python `+`, and an exception means
no row is written. -/
def drawReadData (start now tin tout weight : ℚ) (initial : Bool) :
    Except String (List ℚ) :=
  let elapsed : PyVal :=
    if initial then PyVal.num 0 else PyVal.pylist [start - now]
  let tempData : PyVal := PyVal.pylist [tin + tout]
  let weightL : PyVal := PyVal.pylist [weight]
  match pyAdd elapsed tempData with
  | Except.error err => Except.error err
  | Except.ok s1 =>
    match pyAdd s1 weightL with
    | Except.error err => Except.error err
    | Except.ok (PyVal.pylist xs) => Except.ok xs
    | Except.ok (PyVal.num q) => Except.ok [q]

/-- C8 describes the intended behaviour, but the code has two slips.
`read_data(initial=True)` evaluates `0 + temp_data` — an int plus a
list — which raises `TypeError`, so the initial call (made at the start
of every `procedures.draw`) writes no row at all; and on the
non-initial path the elapsed field is `self.start - time.time()`, the
negation of the non-negative elapsed duration the claim (and the
sibling `SimulatedUseWriter.read_data`, which computes
`time.time() - self.start`) describes: with start 5 and current time 7
the recorded value is `5 - 7 = -2`, not `2`. -/
theorem draw_read_data_behavior :
    drawReadData 5 7 20 30 100 true = Except.error "TypeError"
    ∧ drawReadData 5 7 20 30 100 false = Except.ok [5 - 7, 20 + 30, 100]
    ∧ (5 - 7 : ℚ) < 0
    ∧ (5 - 7 : ℚ) ≠ 7 - 5 := by
  refine ⟨rfl, rfl, by norm_num, by norm_num⟩
